import Mathlib

/-!
Verification of the FoodApp recipe-management backend (user accounts,
recipes, tags, ingredients) against its natural-language specification.

The data model and the request handlers are embedded shallowly: database
tables become lists of rows, the Django REST framework viewsets of
`recipe/views.py` and `user/views.py` become functions from a store and a
request to an HTTP status plus the updated store.  Code of the repository
that is only visible through its tests (the `core.models` user manager and
image-path helper, and the serializers) is modelled from the specification
and is marked as such in the corresponding doc comments.
-/

namespace FoodApp

/-- A row of the user table: email (unique, normalized), stored (hashed)
password, staff/superuser flags (spec §3). -/
structure User where
  id : Nat
  email : String
  password : String
  isStaff : Bool
  isSuperuser : Bool
deriving DecidableEq

/-- A row of the recipe table: title, description, time estimate, price,
external link, owning user, many-to-many tag and ingredient links
(spec §3).  The many-to-many links are kept as lists of row ids. -/
structure Recipe where
  id : Nat
  user : Nat
  title : String
  timeMinutes : Nat
  price : Int
  description : String
  link : String
  tagIds : List Nat
  ingredientIds : List Nat
deriving DecidableEq

/-- A row of the tag table: name, owning user (spec §3). -/
structure TagRow where
  id : Nat
  user : Nat
  name : String
deriving DecidableEq

/-- The ordering used by `RecipeViewSet.get_queryset`
(`recipe/views.py:23`, `order_by('-id')`): descending id. -/
def recipeOrd : Recipe → Recipe → Prop := fun a b => b.id ≤ a.id

instance : DecidableRel recipeOrd := fun a b => Nat.decLe b.id a.id

instance : IsTotal Recipe recipeOrd := ⟨fun a b => Nat.le_total b.id a.id⟩

instance : IsTrans Recipe recipeOrd := ⟨fun _ _ _ h1 h2 => Nat.le_trans h2 h1⟩

/-- The ordering used by `TagViewSet.get_queryset`
(`recipe/views.py:52`, `order_by('-name')`): descending name. -/
def tagOrd : TagRow → TagRow → Prop := fun a b => b.name ≤ a.name

instance : DecidableRel tagOrd := fun a b => inferInstanceAs (Decidable (b.name ≤ a.name))

instance : IsTotal TagRow tagOrd := ⟨fun a b => le_total b.name a.name⟩

instance : IsTrans TagRow tagOrd := ⟨fun _ _ _ h1 h2 => le_trans h2 h1⟩

/-- `RecipeViewSet.get_queryset` (`recipe/views.py:21-23`):
`self.queryset.filter(user=self.request.user).order_by('-id')`. -/
def recipeGetQueryset (store : List Recipe) (uid : Nat) : List Recipe :=
  List.insertionSort recipeOrd (store.filter (fun r => r.user == uid))

/-- `TagViewSet.get_queryset` (`recipe/views.py:50-52`):
`self.queryset.filter(user=self.request.user).order_by('-name')`. -/
def tagGetQueryset (store : List TagRow) (uid : Nat) : List TagRow :=
  List.insertionSort tagOrd (store.filter (fun t => t.user == uid))

theorem mem_recipeGetQueryset {store : List Recipe} {uid : Nat} {r : Recipe} :
    r ∈ recipeGetQueryset store uid ↔ r ∈ store ∧ r.user = uid := by
  simp [recipeGetQueryset, List.mem_insertionSort, List.mem_filter]

theorem mem_tagGetQueryset {store : List TagRow} {uid : Nat} {t : TagRow} :
    t ∈ tagGetQueryset store uid ↔ t ∈ store ∧ t.user = uid := by
  simp [tagGetQueryset, List.mem_insertionSort, List.mem_filter]

/-- HTTP status codes the API returns (spec §6: 200/201/204/400/401/404). -/
inductive HStatus where
  | ok200
  | created201
  | noContent204
  | badRequest400
  | unauthorized401
  | notFound404
deriving DecidableEq

/-- A partial- or full-update payload for a recipe.  `none` means the field
is absent from the request body.  The payload may name a `user`, as in
`test_update_user_returns_error` (`recipe/tests/test_recipe_api.py:186-197`). -/
structure RecipePatch where
  title : Option String := none
  timeMinutes : Option Nat := none
  price : Option Int := none
  description : Option String := none
  link : Option String := none
  user : Option Nat := none
deriving DecidableEq

/-- Modelled from the spec: `recipe/serializers.py` is not among the
sources; the spec states "owning user immutable after creation", and
`test_update_user_returns_error` shows a submitted `user` field is
ignored.  Every other submitted field overwrites the stored one. -/
def applyPatch (p : RecipePatch) (r : Recipe) : Recipe :=
  { r with
    title := p.title.getD r.title
    timeMinutes := p.timeMinutes.getD r.timeMinutes
    price := p.price.getD r.price
    description := p.description.getD r.description
    link := p.link.getD r.link }

/-- The framework's `get_object`: look the primary key up inside
`get_queryset()` (`recipe/views.py:21-23`), so an id outside the
requester's own rows is simply not found. -/
def getObject (store : List Recipe) (uid pk : Nat) : Option Recipe :=
  (recipeGetQueryset store uid).find? (fun r => r.id == pk)

/-- The retrieve (GET detail) operation of `RecipeViewSet`. -/
def recipeRetrieve (store : List Recipe) (uid pk : Nat) : HStatus × List Recipe :=
  match getObject store uid pk with
  | none => (.notFound404, store)
  | some _ => (.ok200, store)

/-- The update (PATCH/PUT detail) operation of `RecipeViewSet`: the object
returned by `get_object` is rewritten through the serializer. -/
def recipeUpdate (store : List Recipe) (uid pk : Nat) (p : RecipePatch) :
    HStatus × List Recipe :=
  match getObject store uid pk with
  | none => (.notFound404, store)
  | some robj => (.ok200, store.map (fun x => if x = robj then applyPatch p x else x))

/-- The delete (DELETE detail) operation of `RecipeViewSet`: the object
returned by `get_object` is removed from the store. -/
def recipeDelete (store : List Recipe) (uid pk : Nat) : HStatus × List Recipe :=
  match getObject store uid pk with
  | none => (.notFound404, store)
  | some robj => (.noContent204, store.filter (fun x => x ≠ robj))

theorem getObject_eq_none_of_other_user {store : List Recipe} {uid : Nat} {r : Recipe}
    (hmem : r ∈ store) (hother : r.user ≠ uid)
    (hids : (store.map Recipe.id).Nodup) :
    getObject store uid r.id = none := by
  rw [getObject, List.find?_eq_none]
  intro x hx
  rcases mem_recipeGetQueryset.1 hx with ⟨hxs, hxu⟩
  simp only [beq_iff_eq]
  intro hid
  exact hother (List.inj_on_of_nodup_map hids hxs hmem hid ▸ hxu)

/-- C1: For every authenticated user and every recipe owned by a different
user, a request addressing that recipe by id (retrieve, update, or delete)
is rejected with a not-found error (HTTP 404), and the recipe store is
unchanged; the response is identical to the one for an id that exists
nowhere, so it does not reveal that the resource exists. -/
theorem cross_user_recipe_access_not_found
    (store : List Recipe) (uid : Nat) (r : Recipe) (p : RecipePatch)
    (hmem : r ∈ store) (hother : r.user ≠ uid)
    (hids : (store.map Recipe.id).Nodup) :
    recipeRetrieve store uid r.id = (.notFound404, store) ∧
    recipeUpdate store uid r.id p = (.notFound404, store) ∧
    recipeDelete store uid r.id = (.notFound404, store) ∧
    (∀ pk, (∀ x ∈ store, x.id ≠ pk) →
      recipeRetrieve store uid pk = (.notFound404, store)) := by
  have h := getObject_eq_none_of_other_user hmem hother hids
  refine ⟨?_, ?_, ?_, ?_⟩
  · rw [recipeRetrieve, h]
  · rw [recipeUpdate, h]
  · rw [recipeDelete, h]
  · intro pk hpk
    have habs : getObject store uid pk = none := by
      rw [getObject, List.find?_eq_none]
      intro x hx
      rcases mem_recipeGetQueryset.1 hx with ⟨hxs, _⟩
      simp only [beq_iff_eq]
      exact hpk x hxs
    rw [recipeRetrieve, habs]

/-- The sample recipe of the C1 witness: id 1, owned by user 2. -/
def sampleOtherRecipe : Recipe :=
  { id := 1, user := 2, title := "t", timeMinutes := 1, price := 1,
    description := "", link := "", tagIds := [], ingredientIds := [] }

theorem cross_user_recipe_access_not_found_witness :
    recipeRetrieve [sampleOtherRecipe] 1 sampleOtherRecipe.id =
      (.notFound404, [sampleOtherRecipe]) ∧
    recipeUpdate [sampleOtherRecipe] 1 sampleOtherRecipe.id {} =
      (.notFound404, [sampleOtherRecipe]) ∧
    recipeDelete [sampleOtherRecipe] 1 sampleOtherRecipe.id =
      (.notFound404, [sampleOtherRecipe]) ∧
    (∀ pk, (∀ x ∈ [sampleOtherRecipe], x.id ≠ pk) →
      recipeRetrieve [sampleOtherRecipe] 1 pk = (.notFound404, [sampleOtherRecipe])) :=
  cross_user_recipe_access_not_found _ 1 _ {} (by decide) (by decide) (by decide)

theorem proj_applyPatch_pointwise (robj : Recipe) (p : RecipePatch) (x : Recipe) :
    ((if x = robj then applyPatch p x else x).id,
     (if x = robj then applyPatch p x else x).user) = (x.id, x.user) := by
  split <;> rfl

/-- C4: For every existing recipe and every update request (partial or
full), the recipe's owning user field is unchanged after the operation,
even when the request payload names a different user; all other submitted
fields take the submitted values. -/
theorem recipe_update_preserves_owner
    (p : RecipePatch) (r : Recipe) (store : List Recipe) (uid pk : Nat) :
    (applyPatch p r).user = r.user ∧
    (applyPatch p r).id = r.id ∧
    (applyPatch p r).title = p.title.getD r.title ∧
    (applyPatch p r).timeMinutes = p.timeMinutes.getD r.timeMinutes ∧
    (applyPatch p r).price = p.price.getD r.price ∧
    (applyPatch p r).description = p.description.getD r.description ∧
    (applyPatch p r).link = p.link.getD r.link ∧
    (recipeUpdate store uid pk p).2.map (fun x => (x.id, x.user)) =
      store.map (fun x => (x.id, x.user)) := by
  refine ⟨rfl, rfl, rfl, rfl, rfl, rfl, rfl, ?_⟩
  rw [recipeUpdate]
  cases h : getObject store uid pk with
  | none => rfl
  | some robj =>
    simp only [List.map_map]
    exact List.map_congr_left (fun x _ => proj_applyPatch_pointwise robj p x)

/-- A create payload for a recipe (the fields the creation test submits). -/
structure RecipeCreate where
  title : String
  timeMinutes : Nat
  price : Int
deriving DecidableEq

/-- Modelled from the spec: the recipe serializer is not among the sources;
validation follows the framework's standard rules the spec names (§7
"validation-error-to-400") with the spec's field constraints (§3: title
required, "price non-negative decimal"). -/
def validRecipeCreate (p : RecipeCreate) : Bool :=
  decide (p.title ≠ "") && decide (0 ≤ p.price)

/-- `RecipeViewSet.perform_create` (`recipe/views.py:32-34`):
`serializer.save(user=self.request.user)` — the new row is owned by the
requesting user. -/
def mkRecipe (uid nid : Nat) (p : RecipeCreate) : Recipe :=
  { id := nid, user := uid, title := p.title, timeMinutes := p.timeMinutes,
    price := p.price, description := "", link := "", tagIds := [],
    ingredientIds := [] }

/-- The recipe list endpoint behind `TokenAuthentication` and
`IsAuthenticated` (`recipe/views.py:18-19`): without a valid token the
framework answers 401 and no handler runs.  Returns (status, body, store). -/
def recipeListApi (store : List Recipe) (auth : Option Nat) :
    HStatus × List Recipe × List Recipe :=
  match auth with
  | none => (.unauthorized401, [], store)
  | some uid => (.ok200, recipeGetQueryset store uid, store)

/-- The recipe create endpoint: 401 without a token, 400 on validation
failure, otherwise the row is appended with the requester as owner. -/
def recipeCreateApi (store : List Recipe) (auth : Option Nat) (nid : Nat)
    (p : RecipeCreate) : HStatus × List Recipe :=
  match auth with
  | none => (.unauthorized401, store)
  | some uid =>
    if validRecipeCreate p then (.created201, store ++ [mkRecipe uid nid p])
    else (.badRequest400, store)

/-- The recipe detail (retrieve) endpoint behind authentication. -/
def recipeDetailApi (store : List Recipe) (auth : Option Nat) (pk : Nat) :
    HStatus × List Recipe :=
  match auth with
  | none => (.unauthorized401, store)
  | some uid => recipeRetrieve store uid pk

/-- The recipe update endpoint behind authentication. -/
def recipeUpdateApi (store : List Recipe) (auth : Option Nat) (pk : Nat)
    (p : RecipePatch) : HStatus × List Recipe :=
  match auth with
  | none => (.unauthorized401, store)
  | some uid => recipeUpdate store uid pk p

/-- The recipe delete endpoint behind authentication. -/
def recipeDeleteApi (store : List Recipe) (auth : Option Nat) (pk : Nat) :
    HStatus × List Recipe :=
  match auth with
  | none => (.unauthorized401, store)
  | some uid => recipeDelete store uid pk

/-- The tag list endpoint behind `TokenAuthentication` and
`IsAuthenticated` (`recipe/views.py:47-48`).  Returns (status, body, store). -/
def tagListApi (store : List TagRow) (auth : Option Nat) :
    HStatus × List TagRow × List TagRow :=
  match auth with
  | none => (.unauthorized401, [], store)
  | some uid => (.ok200, tagGetQueryset store uid, store)

/-- `ManageUserView` (`user/views.py:27-35`): behind `TokenAuthentication`
and `IsAuthenticated`; `get_object` returns the requesting user. -/
def manageUserApi (users : List User) (auth : Option Nat) :
    HStatus × List User :=
  match auth with
  | none => (.unauthorized401, users)
  | some _ => (.ok200, users)

/-- C8: Every recipe, tag, and user-profile operation invoked without a
valid authentication token returns HTTP 401 and leaves the store
unchanged; validation failures on authenticated requests return HTTP 400
and also leave the store unchanged. -/
theorem unauthenticated_requests_rejected
    (store : List Recipe) (tags : List TagRow) (users : List User)
    (pk nid uid : Nat) (p : RecipeCreate) (pt : RecipePatch) :
    recipeListApi store none = (.unauthorized401, [], store) ∧
    recipeCreateApi store none nid p = (.unauthorized401, store) ∧
    recipeDetailApi store none pk = (.unauthorized401, store) ∧
    recipeUpdateApi store none pk pt = (.unauthorized401, store) ∧
    recipeDeleteApi store none pk = (.unauthorized401, store) ∧
    tagListApi tags none = (.unauthorized401, [], tags) ∧
    manageUserApi users none = (.unauthorized401, users) ∧
    (validRecipeCreate p = false →
      recipeCreateApi store (some uid) nid p = (.badRequest400, store)) := by
  refine ⟨rfl, rfl, rfl, rfl, rfl, rfl, rfl, fun hbad => ?_⟩
  rw [recipeCreateApi, hbad]
  rfl

/-- C8 witness: the empty stores, with an invalid create payload (blank
title, as in the blank-field validation of the serializer). -/
theorem unauthenticated_requests_rejected_witness :
    recipeListApi [] none = (.unauthorized401, [], []) ∧
    recipeCreateApi [] none 1 ⟨"", 1, 1⟩ = (.unauthorized401, []) ∧
    recipeDetailApi [] none 1 = (.unauthorized401, []) ∧
    recipeUpdateApi [] none 1 {} = (.unauthorized401, []) ∧
    recipeDeleteApi [] none 1 = (.unauthorized401, []) ∧
    tagListApi [] none = (.unauthorized401, [], []) ∧
    manageUserApi [] none = (.unauthorized401, []) ∧
    (validRecipeCreate ⟨"", 1, 1⟩ = false →
      recipeCreateApi [] (some 1) 1 ⟨"", 1, 1⟩ = (.badRequest400, [])) :=
  unauthenticated_requests_rejected [] [] [] 1 1 1 ⟨"", 1, 1⟩ {}

/-- The recipe list request as the filtering tests issue it
(`test_filter_by_tags`, `recipe/tests/test_recipe_api.py:327-345`): the
query string may carry comma-separated tag ids and ingredient ids.  The
body of `RecipeViewSet.get_queryset` (`recipe/views.py:21-23`) reads no
query parameter, so both are ignored. -/
def recipeListWithParams (store : List Recipe) (uid : Nat)
    (_tagParams _ingParams : Option (List Nat)) : List Recipe :=
  recipeGetQueryset store uid

/-- The three recipes of `test_filter_by_tags`: r1 carries tag 1, r2
carries tag 2, r3 carries no tag; all owned by user 1. -/
def filterR1 : Recipe :=
  { id := 1, user := 1, title := "qorme Sabzi", timeMinutes := 22, price := 5,
    description := "", link := "", tagIds := [1], ingredientIds := [] }

def filterR2 : Recipe :=
  { id := 2, user := 1, title := "makarooni", timeMinutes := 22, price := 5,
    description := "", link := "", tagIds := [2], ingredientIds := [] }

def filterR3 : Recipe :=
  { id := 3, user := 1, title := "dampokhtak", timeMinutes := 22, price := 5,
    description := "", link := "", tagIds := [], ingredientIds := [] }

/-- C2 (code bug): on the store of `test_filter_by_tags`, a list request
with `tags=1,2` still returns recipe r3, which is linked to none of the
listed tags, because `get_queryset` ignores the query parameters entirely:
the response is identical to the one for a request with no filter. -/
theorem recipe_list_ignores_filter_params :
    filterR3 ∈ recipeListWithParams [filterR1, filterR2, filterR3] 1 (some [1, 2]) none ∧
    filterR3.tagIds = [] ∧
    recipeListWithParams [filterR1, filterR2, filterR3] 1 (some [1, 2]) none =
      recipeListWithParams [filterR1, filterR2, filterR3] 1 none none := by
  refine ⟨?_, rfl, rfl⟩
  decide

/-- Modelled from the spec: `core/models.py` (the custom user manager
calling `set_password`) and `user/serializers.py` are not among the
sources; the spec states "password always stored hashed, never plaintext".
The hasher is abstracted as an injective encoding carrying the algorithm
marker of the stored format, so the stored value is never the submitted
plaintext. -/
def hashPassword (p : String) : String :=
  "pbkdf2_sha256$" ++ p

/-- Modelled from the spec: `check_password` succeeds exactly when hashing
the submitted plaintext reproduces the stored value. -/
def checkPassword (raw stored : String) : Bool :=
  stored == hashPassword raw

/-- Split a character list at the LAST occurrence of `sep`: the pieces
before and after it, or `none` when `sep` does not occur. -/
def splitAtLast (sep : Char) : List Char → Option (List Char × List Char)
  | [] => none
  | c :: rest =>
    match splitAtLast sep rest with
    | some (l, d) => some (c :: l, d)
    | none => if c = sep then some ([], rest) else none

/-- Modelled from the spec: the user manager's email normalization
(`core/models.py` is not among the sources; spec §3: "email (unique,
normalized)", and `test_new_user_email_normalized` fixes the behavior):
the domain part after the last `@` is lowercased, the local part is kept
as given; a string without `@` is returned unchanged. -/
def normalizeEmailChars (cs : List Char) : List Char :=
  match splitAtLast '@' cs with
  | some (l, d) => l ++ '@' :: d.map Char.toLower
  | none => cs

def normalizeEmail (s : String) : String :=
  String.mk (normalizeEmailChars s.data)

/-- Modelled from the spec: `UserManager.create_user` of `core/models.py`
stores the normalized email and the hashed password on the new row. -/
def mkUser (nid : Nat) (email pwd : String) : User :=
  { id := nid, email := normalizeEmail email, password := hashPassword pwd,
    isStaff := false, isSuperuser := false }

/-- Modelled from the spec: `UserManager.create_user` raises `ValueError`
on an empty email (`test_new_user_without_email_raises_error`), creating
no user; otherwise the new row is appended. -/
def create_user (store : List User) (nid : Nat) (email pwd : String) :
    Option (List User) :=
  if email = "" then none else some (store ++ [mkUser nid email pwd])

/-- Modelled from the spec: the profile-update endpoint rehashes a newly
submitted password before storing it. -/
def updateUserPassword (u : User) (newPwd : Option String) : User :=
  match newPwd with
  | none => u
  | some p => { u with password := hashPassword p }

theorem hashPassword_ne (p : String) : hashPassword p ≠ p := by
  intro h
  have h1 : (hashPassword p).data.length = p.data.length := by rw [h]
  have h2 : (hashPassword p).data = "pbkdf2_sha256$".data ++ p.data := rfl
  have h3 : "pbkdf2_sha256$".data.length = 14 := by decide
  rw [h2, List.length_append, h3] at h1
  omega

theorem checkPassword_hash (p : String) : checkPassword p (hashPassword p) = true := by
  simp [checkPassword]

/-- C6: For every user created through the user-creation operation with a
password, the stored password field never equals the submitted plaintext,
while password verification against the submitted plaintext succeeds; the
same holds for a password submitted through an update. -/
theorem password_never_stored_plaintext
    (nid : Nat) (email pwd pwd2 : String) (u : User) :
    (mkUser nid email pwd).password ≠ pwd ∧
    checkPassword pwd (mkUser nid email pwd).password = true ∧
    (updateUserPassword u (some pwd2)).password ≠ pwd2 ∧
    checkPassword pwd2 (updateUserPassword u (some pwd2)).password = true :=
  ⟨hashPassword_ne pwd, checkPassword_hash pwd,
   hashPassword_ne pwd2, checkPassword_hash pwd2⟩

theorem splitAtLast_eq_none {sep : Char} {cs : List Char} (h : sep ∉ cs) :
    splitAtLast sep cs = none := by
  induction cs with
  | nil => rfl
  | cons c rest ih =>
    have hc : c ≠ sep := fun hcs => h (hcs ▸ List.mem_cons_self c rest)
    have hr : sep ∉ rest := fun hm => h (List.mem_cons_of_mem c hm)
    rw [splitAtLast, ih hr]
    simp [hc]

theorem splitAtLast_append {sep : Char} {d : List Char} (l : List Char)
    (h : sep ∉ d) : splitAtLast sep (l ++ sep :: d) = some (l, d) := by
  induction l with
  | nil => rw [List.nil_append, splitAtLast, splitAtLast_eq_none h]; simp
  | cons c rest ih => rw [List.cons_append, splitAtLast, ih]

theorem normalizeEmailChars_split {l d : List Char} (h : '@' ∉ d) :
    normalizeEmailChars (l ++ '@' :: d) = l ++ '@' :: d.map Char.toLower := by
  rw [normalizeEmailChars, splitAtLast_append l h]

/-- C7: For every email address supplied at user creation, the stored
email equals the input with its domain part (after the last `@`)
lowercased and the local part (before the `@`) preserved as given;
creating a user with an empty email fails with an error and creates no
user. -/
theorem user_email_normalized
    (store : List User) (nid : Nat) (l d : List Char) (pwd : String)
    (hd : '@' ∉ d) :
    (mkUser nid (String.mk (l ++ '@' :: d)) pwd).email =
      String.mk (l ++ '@' :: d.map Char.toLower) ∧
    create_user store nid "" pwd = none := by
  constructor
  · show normalizeEmail (String.mk (l ++ '@' :: d)) = _
    rw [normalizeEmail]
    show String.mk (normalizeEmailChars (l ++ '@' :: d)) = _
    rw [normalizeEmailChars_split hd]
  · rfl

/-- C7 witness: the first row of `test_new_user_email_normalized`:
`test1@EXAMPLE.com` is stored as `test1@example.com`. -/
theorem user_email_normalized_witness :
    ('@' ∉ ['E', 'X', 'A', 'M', 'P', 'L', 'E', '.', 'c', 'o', 'm']) ∧
    ((mkUser 1 (String.mk (['t', 'e', 's', 't', '1'] ++ '@' ::
        ['E', 'X', 'A', 'M', 'P', 'L', 'E', '.', 'c', 'o', 'm'])) "sample123").email =
      String.mk (['t', 'e', 's', 't', '1'] ++ '@' ::
        (['E', 'X', 'A', 'M', 'P', 'L', 'E', '.', 'c', 'o', 'm'].map Char.toLower)) ∧
     create_user [] 1 "" "sample123" = none) :=
  ⟨by decide,
   user_email_normalized [] 1 ['t', 'e', 's', 't', '1']
     ['E', 'X', 'A', 'M', 'P', 'L', 'E', '.', 'c', 'o', 'm'] "sample123" (by decide)⟩

/-- The extension of a filename in the sense of `os.path.splitext`: the
part from the last dot on, empty when there is no dot. -/
def extOfChars (cs : List Char) : List Char :=
  match splitAtLast '.' cs with
  | some (_, e) => '.' :: e
  | none => []

/-- Modelled from the spec: `core.models.recipe_image_file_path`
(`core/models.py` is not among the sources; `test_recipe_file_name`,
`core/tests/test_models.py:89-96`, fixes the behavior): the stored path
is the literal 'uploads\recipe\' followed by a freshly generated UUID with
the original filename's extension appended; the original base name is
discarded.  The UUID is passed in explicitly, standing for `uuid.uuid4()`. -/
def recipe_image_file_path (uuid : String) (filename : String) : String :=
  String.mk ("uploads\\recipe\\".data ++ uuid.data ++ extOfChars filename.data)

/-- C10: For every uploaded recipe-image filename with an extension, the
stored file path is 'uploads\recipe\' followed by the generated UUID with
the original filename's extension appended, independent of the original
base name, using backslash path separators. -/
theorem image_path_uuid_and_extension
    (uuid : String) (base ext : List Char) (hext : '.' ∉ ext) :
    recipe_image_file_path uuid (String.mk (base ++ '.' :: ext)) =
      String.mk ("uploads\\recipe\\".data ++ uuid.data ++ '.' :: ext) := by
  rw [recipe_image_file_path]
  show String.mk (_ ++ _ ++ extOfChars (base ++ '.' :: ext)) = _
  rw [extOfChars, splitAtLast_append base hext]

/-- C10 witness: the input of `test_recipe_file_name`: uuid `test_uuid`,
filename `example.jpg`, expected path `uploads\recipe\test_uuid.jpg`. -/
theorem image_path_uuid_and_extension_witness :
    ('.' ∉ ['j', 'p', 'g']) ∧
    recipe_image_file_path "test_uuid"
        (String.mk (['e', 'x', 'a', 'm', 'p', 'l', 'e'] ++ '.' :: ['j', 'p', 'g'])) =
      String.mk ("uploads\\recipe\\".data ++ "test_uuid".data ++ '.' :: ['j', 'p', 'g']) :=
  ⟨by decide,
   image_path_uuid_and_extension "test_uuid" ['e', 'x', 'a', 'm', 'p', 'l', 'e']
     ['j', 'p', 'g'] (by decide)⟩

/-- Modelled from the spec: the recipe serializer's tag reconciliation
(`recipe/serializers.py` is not among the sources; spec §3: "tag/ingredient
lists are reconciled by get-or-create-by-name per request").  For each
submitted name in order, a tag with that name owned by the requesting user
is looked up in the tag store; a hit is reused, a miss creates a fresh row
owned by the user.  Returns the updated tag store, the list of reconciled
rows (the recipe's resulting tag set, since the serializer clears the
relation and adds exactly these), and the next fresh id. -/
def getOrCreateTags (tags : List TagRow) (u nid : Nat) (names : List String) :
    List TagRow × List TagRow × Nat :=
  match names with
  | [] => (tags, [], nid)
  | n :: rest =>
    match tags.find? (fun t => t.user == u && t.name == n) with
    | some t =>
      ((getOrCreateTags tags u nid rest).1,
       t :: (getOrCreateTags tags u nid rest).2.1,
       (getOrCreateTags tags u nid rest).2.2)
    | none =>
      ((getOrCreateTags (tags ++ [⟨nid, u, n⟩]) u (nid + 1) rest).1,
       (⟨nid, u, n⟩ : TagRow) ::
         (getOrCreateTags (tags ++ [⟨nid, u, n⟩]) u (nid + 1) rest).2.1,
       (getOrCreateTags (tags ++ [⟨nid, u, n⟩]) u (nid + 1) rest).2.2)

theorem goc_store (names : List String) : ∀ (tags : List TagRow) (u nid : Nat),
    ∃ created, (getOrCreateTags tags u nid names).1 = tags ++ created ∧
      ∀ t ∈ created, t.user = u ∧ t.name ∈ names ∧
        ∀ t0 ∈ tags, ¬(t0.user = u ∧ t0.name = t.name) := by
  induction names with
  | nil =>
    intro tags u nid
    exact ⟨[], by simp [getOrCreateTags], by simp⟩
  | cons n rest ih =>
    intro tags u nid
    cases hf : tags.find? (fun t => t.user == u && t.name == n) with
    | some t =>
      obtain ⟨created, hst, hprops⟩ := ih tags u nid
      refine ⟨created, ?_, ?_⟩
      · simp only [getOrCreateTags, hf]
        exact hst
      · intro t' ht'
        obtain ⟨h1, h2, h3⟩ := hprops t' ht'
        exact ⟨h1, List.mem_cons_of_mem n h2, h3⟩
    | none =>
      obtain ⟨created, hst, hprops⟩ := ih (tags ++ [⟨nid, u, n⟩]) u (nid + 1)
      have hnone := List.find?_eq_none.1 hf
      refine ⟨⟨nid, u, n⟩ :: created, ?_, ?_⟩
      · simp only [getOrCreateTags, hf]
        rw [hst, List.append_assoc, List.singleton_append]
      · intro t' ht'
        rcases List.mem_cons.1 ht' with rfl | h'
        · refine ⟨rfl, List.mem_cons_self n rest, fun t0 ht0 hmatch => ?_⟩
          have := hnone t0 ht0
          simp only [Bool.and_eq_true, beq_iff_eq, not_and] at this
          exact this hmatch.1 hmatch.2
        · obtain ⟨h1, h2, h3⟩ := hprops t' h'
          exact ⟨h1, List.mem_cons_of_mem n h2,
            fun t0 ht0 => h3 t0 (List.mem_append_left _ ht0)⟩

theorem goc_rows (names : List String) : ∀ (tags : List TagRow) (u nid : Nat),
    ((getOrCreateTags tags u nid names).2.1.map TagRow.name = names) ∧
    ∀ t ∈ (getOrCreateTags tags u nid names).2.1,
      t.user = u ∧ t ∈ (getOrCreateTags tags u nid names).1 := by
  induction names with
  | nil =>
    intro tags u nid
    exact ⟨rfl, by simp [getOrCreateTags]⟩
  | cons n rest ih =>
    intro tags u nid
    cases hf : tags.find? (fun t => t.user == u && t.name == n) with
    | some t =>
      have hp := List.find?_some hf
      simp only [Bool.and_eq_true, beq_iff_eq] at hp
      have hmem : t ∈ tags := List.mem_of_find?_eq_some hf
      obtain ⟨hmap, hprops⟩ := ih tags u nid
      constructor
      · simp only [getOrCreateTags, hf, List.map_cons, hmap, hp.2]
      · intro t' ht'
        simp only [getOrCreateTags, hf] at ht' ⊢
        rcases List.mem_cons.1 ht' with rfl | h'
        · obtain ⟨created, hst, -⟩ := goc_store rest tags u nid
          exact ⟨hp.1, hst ▸ List.mem_append_left created hmem⟩
        · exact hprops t' h'
    | none =>
      obtain ⟨hmap, hprops⟩ := ih (tags ++ [⟨nid, u, n⟩]) u (nid + 1)
      constructor
      · simp only [getOrCreateTags, hf, List.map_cons, hmap]
      · intro t' ht'
        simp only [getOrCreateTags, hf] at ht' ⊢
        rcases List.mem_cons.1 ht' with rfl | h'
        · obtain ⟨created, hst, -⟩ :=
            goc_store rest (tags ++ [⟨nid, u, n⟩]) u (nid + 1)
          exact ⟨rfl, hst ▸ List.mem_append_left created (by simp)⟩
        · exact hprops t' h'

/-- C5: When a recipe is created or updated with a list of tag names, each
name is reconciled by get-or-create scoped to the requesting user: the
reconciled rows carry exactly the submitted name list in order (so an
empty list clears all tags), each row is owned by the user and present in
the resulting tag store, and the store grows only by rows for names the
user did not already have — a name already owned by the user is reused and
no duplicate is created for it. -/
theorem tag_names_reconciled_by_get_or_create
    (tags : List TagRow) (u nid : Nat) (names : List String) :
    ((getOrCreateTags tags u nid names).2.1.map TagRow.name = names) ∧
    (∀ t ∈ (getOrCreateTags tags u nid names).2.1,
      t.user = u ∧ t ∈ (getOrCreateTags tags u nid names).1) ∧
    (∃ created, (getOrCreateTags tags u nid names).1 = tags ++ created ∧
      ∀ t ∈ created, t.user = u ∧ t.name ∈ names ∧
        ∀ t0 ∈ tags, ¬(t0.user = u ∧ t0.name = t.name)) :=
  ⟨(goc_rows names tags u nid).1, (goc_rows names tags u nid).2,
   goc_store names tags u nid⟩

/-- C5 witness: the store of `test_creating_recipe_with_existing_tag`: the
user already owns tag `irani`; the payload submits names `irani` and
`best`. -/
theorem tag_names_reconciled_by_get_or_create_witness :
    ((getOrCreateTags [⟨1, 1, "irani"⟩] 1 2 ["irani", "best"]).2.1.map TagRow.name =
      ["irani", "best"]) ∧
    (∀ t ∈ (getOrCreateTags [⟨1, 1, "irani"⟩] 1 2 ["irani", "best"]).2.1,
      t.user = 1 ∧ t ∈ (getOrCreateTags [⟨1, 1, "irani"⟩] 1 2 ["irani", "best"]).1) ∧
    (∃ created,
      (getOrCreateTags [⟨1, 1, "irani"⟩] 1 2 ["irani", "best"]).1 =
        [⟨1, 1, "irani"⟩] ++ created ∧
      ∀ t ∈ created, t.user = 1 ∧ t.name ∈ ["irani", "best"] ∧
        ∀ t0 ∈ [(⟨1, 1, "irani"⟩ : TagRow)], ¬(t0.user = 1 ∧ t0.name = t.name)) :=
  tag_names_reconciled_by_get_or_create [⟨1, 1, "irani"⟩] 1 2 ["irani", "best"]

/-- C3: For every authenticated user, the recipe list and tag list
operations return exactly the records whose owner is that user: every
recipe/tag owned by the requester appears, and no recipe/tag owned by any
other user appears. -/
theorem recipe_and_tag_lists_scoped_to_owner
    (rs : List Recipe) (ts : List TagRow) (uid : Nat) (r : Recipe) (t : TagRow) :
    (r ∈ recipeGetQueryset rs uid ↔ r ∈ rs ∧ r.user = uid) ∧
    (t ∈ tagGetQueryset ts uid ↔ t ∈ ts ∧ t.user = uid) :=
  ⟨mem_recipeGetQueryset, mem_tagGetQueryset⟩

/-- C9: The recipe list operation returns the authenticated user's recipes
sorted by descending id, and the tag list operation returns the user's
tags sorted by descending name, for every store (insertion order). -/
theorem recipe_and_tag_lists_sorted_descending
    (rs : List Recipe) (ts : List TagRow) (uid : Nat) :
    List.Sorted recipeOrd (recipeGetQueryset rs uid) ∧
    List.Sorted tagOrd (tagGetQueryset ts uid) ∧
    (∀ a b : Recipe, recipeOrd a b ↔ b.id ≤ a.id) ∧
    (∀ a b : TagRow, tagOrd a b ↔ b.name ≤ a.name) :=
  ⟨List.sorted_insertionSort recipeOrd _, List.sorted_insertionSort tagOrd _,
   fun _ _ => Iff.rfl, fun _ _ => Iff.rfl⟩

end FoodApp
